import Mathlib

/-!
Verification development for the colourizer_rs repository.

The Rust sources (src/filterbank.rs and src/lib.rs) are shallowly embedded
over the real numbers: every f32 value becomes a real number, the stateful
biquad filters become pure state-passing functions, and the per-block
processing loops of the plugin become structural recursions over lists.
The host-framework parameter smoother (nih_plug, an external crate) is
abstracted as a stream of smoothed values together with a cursor; the only
facts used about it are which call sites advance it, which is exactly what
the sources under src/ determine.
-/

namespace Colourizer

noncomputable section

/-- Embedding of PeakFilter from src/filterbank.rs: five fixed biquad
coefficients plus two delay-state values. -/
structure PeakFilter where
  b0 : ℝ
  b1 : ℝ
  b2 : ℝ
  a1 : ℝ
  a2 : ℝ
  z1 : ℝ
  z2 : ℝ

/-- Embedding of PeakFilter::new: RBJ peaking-EQ coefficients, normalized by
a0, with zero initial state. -/
def PeakFilter.new (freq q gain_db sample_rate : ℝ) : PeakFilter :=
  let a : ℝ := (10 : ℝ) ^ (gain_db / 40)
  let w0 : ℝ := 2 * Real.pi * freq / sample_rate
  let alpha : ℝ := Real.sin w0 / (2 * q)
  let b0 := 1 + alpha * a
  let b1 := -2 * Real.cos w0
  let b2 := 1 - alpha * a
  let a0 := 1 + alpha / a
  let a1 := -2 * Real.cos w0
  let a2 := 1 - alpha / a
  ⟨b0 / a0, b1 / a0, b2 / a0, a1 / a0, a2 / a0, 0, 0⟩

/-- Embedding of PeakFilter::process: transposed direct-form II update,
returning the output sample and the updated filter state. -/
def PeakFilter.process (f : PeakFilter) (input : ℝ) : ℝ × PeakFilter :=
  let out := f.b0 * input + f.z1
  ⟨out, ⟨f.b0, f.b1, f.b2, f.a1, f.a2,
         f.b1 * input - f.a1 * out + f.z2,
         f.b2 * input - f.a2 * out⟩⟩

/-- Embedding of FilterBank from src/filterbank.rs: a list of
(pitch class, peaking filter) pairs and the 12 per-pitch-class gains. -/
structure FilterBank where
  filters : List (Fin 12 × PeakFilter)
  gains : Fin 12 → ℝ

/-- Embedding of FilterBank::new: one filter per MIDI note 12..=119 with
freq = 440 * 2 ^ ((midi - 69) / 12), pitch class midi % 12, Q = 100,
gain 20 dB, and all twelve gains initialized to 1. -/
def FilterBank.new (sample_rate : ℝ) : FilterBank where
  filters := (List.range' 12 108).map (fun midi =>
    (⟨midi % 12, Nat.mod_lt midi (by norm_num)⟩,
     PeakFilter.new (440 * (2 : ℝ) ^ (((midi : ℝ) - 69) / 12)) 100 20 sample_rate))
  gains := fun _ => 1

/-- Embedding of FilterBank::set_gains: replaces the full gain vector. -/
def FilterBank.set_gains (fb : FilterBank) (g : Fin 12 → ℝ) : FilterBank :=
  ⟨fb.filters, g⟩

/-- Embedding of FilterBank::process_sample: fold over all filters,
accumulating the weighted outputs and the gain sum, then subtract the
unity-gain correction term gain_sum * input. -/
def FilterBank.process_sample (fb : FilterBank) (input : ℝ) : ℝ × FilterBank :=
  let r := fb.filters.foldl
    (fun acc p =>
      (acc.1 + (p.2.process input).1 * fb.gains p.1,
       acc.2.1 + fb.gains p.1,
       acc.2.2 ++ [(p.1, (p.2.process input).2)]))
    ((0 : ℝ), (0 : ℝ), ([] : List (Fin 12 × PeakFilter)))
  (r.1 - r.2.1 * input, ⟨r.2.2, fb.gains⟩)

/-- Written from the words of the spec for comparison with the code: the
accumulated sum over all stages of stage.process(x) times the weight of
the pitch class of the stage. -/
def FilterBank.specWeightedSum (fb : FilterBank) (x : ℝ) : ℝ :=
  (fb.filters.map (fun p => (p.2.process x).1 * fb.gains p.1)).sum

/-- The per-stage accumulated gain sum of FilterBank::process_sample. -/
def FilterBank.gainTotal (fb : FilterBank) : ℝ :=
  (fb.filters.map (fun p => fb.gains p.1)).sum

/-- The filter list after every stage processed one input sample. -/
def FilterBank.stepFilters (fb : FilterBank) (x : ℝ) : List (Fin 12 × PeakFilter) :=
  fb.filters.map (fun p => (p.1, (p.2.process x).2))

/-- Written from the words of the spec for comparison with the code: the
defensive constructor that the spec mandates, failing with a configuration
error on a non-positive sample rate. -/
def FilterBank.newChecked (sample_rate : ℝ) : Option FilterBank :=
  if 0 < sample_rate then some (FilterBank.new sample_rate) else none

/-- Closed form of the accumulator fold inside FilterBank::process_sample. -/
theorem FilterBank.foldl_aux (gains : Fin 12 → ℝ) (x : ℝ) :
    ∀ (fs : List (Fin 12 × PeakFilter)) (s gs : ℝ) (acc : List (Fin 12 × PeakFilter)),
    fs.foldl
      (fun acc2 p =>
        (acc2.1 + (p.2.process x).1 * gains p.1,
         acc2.2.1 + gains p.1,
         acc2.2.2 ++ [(p.1, (p.2.process x).2)]))
      (s, gs, acc)
    = (s + (fs.map (fun p => (p.2.process x).1 * gains p.1)).sum,
       gs + (fs.map (fun p => gains p.1)).sum,
       acc ++ fs.map (fun p => (p.1, (p.2.process x).2)))
  | [], s, gs, acc => by simp
  | f :: fs, s, gs, acc => by
    simp only [List.foldl_cons, List.map_cons, List.sum_cons, List.append_assoc,
      List.singleton_append, FilterBank.foldl_aux gains x fs]
    refine Prod.ext (by ring) (Prod.ext (by ring) rfl)

/-- Characterization of FilterBank::process_sample: the returned value is the
spec weighted sum minus gainTotal times the input, every stage advances its
state on the input, and the gains are untouched. -/
theorem FilterBank.process_sample_eq (fb : FilterBank) (x : ℝ) :
    fb.process_sample x
      = (fb.specWeightedSum x - fb.gainTotal * x, ⟨fb.stepFilters x, fb.gains⟩) := by
  unfold FilterBank.process_sample
  rw [FilterBank.foldl_aux fb.gains x fb.filters 0 0 []]
  simp [FilterBank.specWeightedSum, FilterBank.gainTotal, FilterBank.stepFilters]

/-- The bank always holds exactly 108 filters after construction. -/
theorem FilterBank.length_new (sample_rate : ℝ) :
    (FilterBank.new sample_rate).filters.length = 108 := by
  simp [FilterBank.new]

/-- Every filter of a freshly constructed bank has zero delay state. -/
theorem FilterBank.new_state_zero (sample_rate : ℝ) :
    ∀ p ∈ (FilterBank.new sample_rate).filters, p.2.z1 = 0 ∧ p.2.z2 = 0 := by
  intro p hp
  simp only [FilterBank.new, List.mem_map] at hp
  obtain ⟨midi, _, rfl⟩ := hp
  exact ⟨rfl, rfl⟩

/-- A bank whose twelve gains are all 1 has per-stage gain total equal to
its filter count. -/
theorem FilterBank.gainTotal_const_one (fb : FilterBank) (h : ∀ i, fb.gains i = 1) :
    fb.gainTotal = fb.filters.length := by
  unfold FilterBank.gainTotal
  have key : ∀ l : List (Fin 12 × PeakFilter),
      (l.map (fun p => fb.gains p.1)).sum = l.length := by
    intro l
    induction l with
    | nil => simp
    | cons a l ih => simp [ih, h]; ring
  exact key _

/-- A fresh bank carries gain 1 on each of the 108 stages, so its per-stage
gain total is 108. -/
theorem FilterBank.gainTotal_new (sample_rate : ℝ) :
    (FilterBank.new sample_rate).gainTotal = 108 := by
  rw [FilterBank.gainTotal_const_one _ (fun i => rfl), FilterBank.length_new]
  norm_num

/-- Abstraction of the host-framework gain smoother used through
params.gain.smoothed.next() in src/lib.rs: a stream of smoothed values and
a cursor; next returns the current value and advances the cursor by one. -/
structure Smoother where
  vals : ℕ → ℝ
  pos : ℕ

/-- One call of Smoother.next. -/
def Smoother.next (s : Smoother) : ℝ × Smoother :=
  (s.vals s.pos, ⟨s.vals, s.pos + 1⟩)

/-- Embedding of the ColourizerRs plugin state from src/lib.rs: the shared
mono bank, the per-channel banks, the sample rate, and the gain smoother. -/
structure ColourizerRs where
  filterbank : FilterBank
  filterbanks : List FilterBank
  sample_rate : ℝ
  gainSmoother : Smoother

/-- The dry/wet crossfade formula of the spec. -/
def blend (mix d w : ℝ) : ℝ := d * (1 - mix) + w * mix

/-- Embedding of the mono arm of ColourizerRs::process, one recursion step
per sample frame: advance the smoother, average the channels of the frame,
run the shared bank once on the average, scale by the smoothed gain, and
write the dry/wet blend of the single processed value into every channel. -/
def processMonoLoop (mix : ℝ) :
    List (List ℝ) → FilterBank → Smoother → List (List ℝ) × FilterBank × Smoother
  | [], fb, sm => ([], fb, sm)
  | frame :: rest, fb, sm =>
    let gain := (sm.next).1
    let input_sum := (frame.foldl (fun a b => a + b) 0) / (frame.length : ℝ)
    let processed := (fb.process_sample input_sum).1 * gain
    let outFrame := frame.map (fun dry => dry * (1 - mix) + processed * mix)
    let r := processMonoLoop mix rest (fb.process_sample input_sum).2 (sm.next).2
    (outFrame :: r.1, r.2)

/-- Top level of the mono arm: set the twelve note gains on the shared bank,
then run the per-frame loop; the per-channel banks are untouched. -/
def processMono (st : ColourizerRs) (ng : Fin 12 → ℝ) (mix : ℝ)
    (frames : List (List ℝ)) : List (List ℝ) × ColourizerRs :=
  let r := processMonoLoop mix frames (st.filterbank.set_gains ng) st.gainSmoother
  (r.1, ⟨r.2.1, st.filterbanks, st.sample_rate, r.2.2⟩)

/-- Written from the words of the spec for comparison with the code: the
mono path described as arithmetic mean, one bank run per frame, and a
broadcast dry/wet blend of the single processed value. -/
def monoSpecLoop (mix : ℝ) :
    List (List ℝ) → FilterBank → Smoother → List (List ℝ) × FilterBank × Smoother
  | [], fb, sm => ([], fb, sm)
  | frame :: rest, fb, sm =>
    let gain := (sm.next).1
    let mean := frame.sum / (frame.length : ℝ)
    let wet := (fb.process_sample mean).1 * gain
    let r := monoSpecLoop mix rest (fb.process_sample mean).2 (sm.next).2
    (frame.map (fun dry => blend mix dry wet) :: r.1, r.2)

/-- Embedding of the per-channel loop of the multi arm of
ColourizerRs::process: every sample of the channel is processed through the
channel-owned bank, scaled by the block gain, and blended dry/wet. -/
def processChannelLoop (gain mix : ℝ) :
    FilterBank → List ℝ → List ℝ × FilterBank
  | fb, [] => ([], fb)
  | fb, dry :: rest =>
    let wet := (fb.process_sample dry).1 * gain
    let r := processChannelLoop gain mix (fb.process_sample dry).2 rest
    ((dry * (1 - mix) + wet * mix) :: r.1, r.2)

/-- Embedding of the lazy bank reallocation at the top of the multi arm:
when the owned bank count differs from the channel count, a fresh bank per
channel replaces the owned banks. -/
def multiBanks (st : ColourizerRs) (n : ℕ) : List FilterBank :=
  if st.filterbanks.length ≠ n then List.replicate n (FilterBank.new st.sample_rate)
  else st.filterbanks

/-- Embedding of the multi arm of ColourizerRs::process: reallocate banks on
a channel-count mismatch, set the note gains on every bank, advance the
smoother once for the whole block, and process each channel independently
with its own bank. -/
def processMulti (st : ColourizerRs) (ng : Fin 12 → ℝ) (mix : ℝ)
    (channels : List (List ℝ)) : List (List ℝ) × ColourizerRs :=
  let banks := (multiBanks st channels.length).map (fun fb => fb.set_gains ng)
  let gain := (st.gainSmoother.next).1
  let results := (channels.zip banks).map (fun p => processChannelLoop gain mix p.2 p.1)
  (results.map Prod.fst,
   ⟨st.filterbank, results.map Prod.snd, st.sample_rate, (st.gainSmoother.next).2⟩)

/-- A concrete plugin state used by the closed witness statements: the
default construction at 44100 Hz with a constant smoothed gain of 1. -/
def sampleState : ColourizerRs :=
  ⟨FilterBank.new 44100, [], 44100, ⟨fun _ => 1, 0⟩⟩

/-- A concrete single-stage filter holding a nonzero delay state, standing
for a stage that has already processed earlier nonzero input. -/
def dirtyFilter : PeakFilter := ⟨0, 0, 0, 0, 0, 1, 0⟩

/-- A concrete plugin state whose shared mono bank holds one filter with a
nonzero delay state. -/
def dirtyState : ColourizerRs :=
  ⟨⟨[(⟨0, by norm_num⟩, dirtyFilter)], fun _ => 1⟩, [], 44100, ⟨fun _ => 1, 0⟩⟩

/-- The mono loop advances the smoother cursor once per sample frame. -/
theorem monoLoop_pos (mix : ℝ) :
    ∀ (frames : List (List ℝ)) (fb : FilterBank) (sm : Smoother),
      (processMonoLoop mix frames fb sm).2.2.pos = sm.pos + frames.length
  | [], fb, sm => by simp [processMonoLoop]
  | frame :: rest, fb, sm => by
    simp only [processMonoLoop, List.length_cons]
    rw [monoLoop_pos mix rest]
    simp [Smoother.next]
    omega

/-- The mono loop never changes the value stream of the smoother. -/
theorem monoLoop_vals (mix : ℝ) :
    ∀ (frames : List (List ℝ)) (fb : FilterBank) (sm : Smoother),
      (processMonoLoop mix frames fb sm).2.2.vals = sm.vals
  | [], fb, sm => by simp [processMonoLoop]
  | frame :: rest, fb, sm => by
    simp only [processMonoLoop]
    rw [monoLoop_vals mix rest]
    rfl

/-- Pointwise form of the one-frame broadcast blend against the fully wet
frame. -/
theorem zipWith_blend_map (mix w : ℝ) :
    ∀ fr : List ℝ,
      List.zipWith (blend mix) fr (fr.map (fun d => d * (1 - 1) + w * 1))
        = fr.map (fun d => d * (1 - mix) + w * mix)
  | [] => by simp
  | d :: fr => by
    simp only [List.map_cons, List.zipWith_cons_cons, zipWith_blend_map mix w fr]
    simp [blend]

/-- The mono loop at any mix: the final bank and smoother states agree with
the fully wet run, and every output sample is the dry/wet blend of the
original sample with the fully wet sample. -/
theorem monoLoop_mix (mix : ℝ) :
    ∀ (frames : List (List ℝ)) (fb : FilterBank) (sm : Smoother),
      (processMonoLoop mix frames fb sm).2 = (processMonoLoop 1 frames fb sm).2
      ∧ (processMonoLoop mix frames fb sm).1
          = List.zipWith (fun f w => List.zipWith (blend mix) f w) frames
              (processMonoLoop 1 frames fb sm).1
  | [], fb, sm => by simp [processMonoLoop]
  | frame :: rest, fb, sm => by
    have ih := monoLoop_mix mix rest
      (fb.process_sample ((frame.foldl (fun a b => a + b) 0) / (frame.length : ℝ))).2
      (sm.next).2
    simp only [processMonoLoop]
    refine ⟨ih.1, ?_⟩
    simp only [List.zipWith_cons_cons, ih.2, zipWith_blend_map]

/-- The mono loop at mix 0 writes the input frames back unchanged. -/
theorem monoLoop_dry :
    ∀ (frames : List (List ℝ)) (fb : FilterBank) (sm : Smoother),
      (processMonoLoop 0 frames fb sm).1 = frames
  | [], fb, sm => by simp [processMonoLoop]
  | frame :: rest, fb, sm => by
    simp only [processMonoLoop]
    rw [monoLoop_dry rest]
    simp

/-- The channel loop at any mix: the final bank state agrees with the fully
wet run, and every output sample is the dry/wet blend of the original
sample with the fully wet sample. -/
theorem chLoop_mix (gain mix : ℝ) :
    ∀ (ch : List ℝ) (fb : FilterBank),
      (processChannelLoop gain mix fb ch).2 = (processChannelLoop gain 1 fb ch).2
      ∧ (processChannelLoop gain mix fb ch).1
          = List.zipWith (blend mix) ch (processChannelLoop gain 1 fb ch).1
  | [], fb => by simp [processChannelLoop]
  | dry :: rest, fb => by
    have ih := chLoop_mix gain mix rest (fb.process_sample dry).2
    simp only [processChannelLoop]
    refine ⟨ih.1, ?_⟩
    simp only [List.zipWith_cons_cons, ih.2, blend]
    have hh : dry * (1 - mix) + (dry * (1 - 1) + (fb.process_sample dry).1 * gain * 1) * mix
        = dry * (1 - mix) + (fb.process_sample dry).1 * gain * mix := by ring
    rw [hh]

/-- The channel loop at mix 0 writes the input samples back unchanged. -/
theorem chLoop_dry (gain : ℝ) :
    ∀ (ch : List ℝ) (fb : FilterBank),
      (processChannelLoop gain 0 fb ch).1 = ch
  | [], fb => by simp [processChannelLoop]
  | dry :: rest, fb => by
    simp only [processChannelLoop]
    rw [chLoop_dry gain rest]
    simp

/-- The channel loop on an empty channel leaves the bank untouched. -/
theorem chLoop_nil (gain mix : ℝ) (fb : FilterBank) :
    processChannelLoop gain mix fb [] = ([], fb) := rfl

/-- The reallocated bank list always matches the requested channel count. -/
theorem multiBanks_length (st : ColourizerRs) (n : ℕ) :
    (multiBanks st n).length = n := by
  unfold multiBanks
  split
  · simp
  · omega

/-- When the owned bank count already matches, no reallocation happens. -/
theorem multiBanks_of_eq (st : ColourizerRs) (n : ℕ)
    (h : st.filterbanks.length = n) : multiBanks st n = st.filterbanks := by
  simp [multiBanks, h]

/-- The multi outputs at any mix are the sample-wise dry/wet blends of the
input channels with the fully wet outputs. -/
theorem multi_outputs_mix (gain mix : ℝ) :
    ∀ (chs : List (List ℝ)) (bks : List FilterBank),
      ((chs.zip bks).map fun p => (processChannelLoop gain mix p.2 p.1).1)
        = List.zipWith (fun ch w => List.zipWith (blend mix) ch w) chs
            ((chs.zip bks).map fun p => (processChannelLoop gain 1 p.2 p.1).1)
  | [], bks => by simp
  | ch :: chs, [] => by simp
  | ch :: chs, fb :: bks => by
    simp only [List.zip_cons_cons, List.map_cons, List.zipWith_cons_cons,
      multi_outputs_mix gain mix chs bks, (chLoop_mix gain mix ch fb).2]

/-- The multi outputs at mix 0 reproduce the input channels, provided one
bank per channel is available. -/
theorem multi_outputs_dry (gain : ℝ) :
    ∀ (chs : List (List ℝ)) (bks : List FilterBank),
      chs.length = bks.length →
      ((chs.zip bks).map fun p => (processChannelLoop gain 0 p.2 p.1).1) = chs
  | [], bks, _ => by simp
  | ch :: chs, [], h => by simp at h
  | ch :: chs, fb :: bks, h => by
    have ih := multi_outputs_dry gain chs bks (by simpa using h)
    simp only [List.zip_cons_cons, List.map_cons]
    rw [chLoop_dry gain ch fb, ih]

/-- Processing all-empty channels is the identity on both the channels and
the bank list. -/
theorem multi_noop_aux (gain mix : ℝ) :
    ∀ (chs : List (List ℝ)) (bks : List FilterBank),
      chs.length = bks.length → (∀ ch ∈ chs, ch = ([] : List ℝ)) →
      ((chs.zip bks).map fun p => (processChannelLoop gain mix p.2 p.1).1) = chs
      ∧ ((chs.zip bks).map fun p => (processChannelLoop gain mix p.2 p.1).2) = bks
  | [], [], _, _ => by simp
  | [], b :: bks, h, _ => by simp at h
  | ch :: chs, [], h, _ => by simp at h
  | ch :: chs, fb :: bks, h, hch => by
    have hce : ch = ([] : List ℝ) := hch ch (by simp)
    have ih := multi_noop_aux gain mix chs bks (by simpa using h)
      (fun c hc => hch c (by simp [hc]))
    subst hce
    simp only [List.zip_cons_cons, List.map_cons, chLoop_nil]
    exact ⟨by rw [ih.1], by rw [ih.2]⟩

/-- Claim C1, amended: for every input sample x and every weight vector,
FilterBank::process_sample runs every stage on x, advancing each stage and
leaving the gains untouched, and returns the accumulated sum over all
stages of stage.process(x) times the pitch-class weight MINUS the
unity-gain correction term, the per-stage weight sum times x. -/
theorem C1_process_sample_correction (fb : FilterBank) (x : ℝ) :
    (fb.process_sample x).1 = fb.specWeightedSum x - fb.gainTotal * x
    ∧ (fb.process_sample x).2.filters = fb.filters.map (fun p => (p.1, (p.2.process x).2))
    ∧ (fb.process_sample x).2.gains = fb.gains := by
  rw [FilterBank.process_sample_eq]
  exact ⟨rfl, rfl, rfl⟩

/-- Claim C1, counterexample: on a fresh bank at 44100 Hz with its default
all-one weights, process_sample 1 does not return the accumulated weighted
stage sum: the code subtracts the correction term 108 * 1. -/
theorem C1_counterexample :
    ((FilterBank.new 44100).process_sample 1).1
      ≠ (FilterBank.new 44100).specWeightedSum 1 := by
  rw [FilterBank.process_sample_eq]
  simp only [FilterBank.gainTotal_new]
  intro h
  have : (108 : ℝ) * 1 = 0 := by linarith
  norm_num at this

/-- Claim C2: a bank built at any valid sample rate holds exactly 108
(pitch class, stage) pairs, the pair at position i belonging to MIDI note
12 + i, with pitch class (12 + i) mod 12 and center frequency
440 * 2 ^ ((midi - 69) / 12), shared Q = 100 and peak gain 20 dB. -/
theorem C2_bank_layout (sr : ℝ) (hsr : 0 < sr) (i : ℕ) (hi : i < 108) :
    (FilterBank.new sr).filters.length = 108
    ∧ ((FilterBank.new sr).filters.get
        ⟨i, by rw [FilterBank.length_new]; exact hi⟩).1.val = (12 + i) % 12
    ∧ ((FilterBank.new sr).filters.get
        ⟨i, by rw [FilterBank.length_new]; exact hi⟩).2
        = PeakFilter.new (440 * (2 : ℝ) ^ ((((12 + i : ℕ) : ℝ) - 69) / 12)) 100 20 sr := by
  refine ⟨FilterBank.length_new sr, ?_, ?_⟩
  · simp [FilterBank.new]
  · simp [FilterBank.new]

/-- Claim C2, witness at sr = 44100 and i = 0 (MIDI note 12, pitch class
0 = C). -/
theorem C2_bank_layout_witness :
    ((0:ℝ) < 44100 ∧ (0:ℕ) < 108)
    ∧ ((FilterBank.new 44100).filters.length = 108
      ∧ ((FilterBank.new 44100).filters.get
          ⟨0, by rw [FilterBank.length_new]; norm_num⟩).1.val = (12 + 0) % 12
      ∧ ((FilterBank.new 44100).filters.get
          ⟨0, by rw [FilterBank.length_new]; norm_num⟩).2
          = PeakFilter.new (440 * (2 : ℝ) ^ ((((12 + 0 : ℕ) : ℝ) - 69) / 12)) 100 20 44100) :=
  ⟨⟨by norm_num, by norm_num⟩, C2_bank_layout 44100 (by norm_num) 0 (by norm_num)⟩

/-- Claim C3, counterexample: at the non-positive sample rate -1, the
defensive constructor demanded by the spec fails, but the code constructor
succeeds and returns an ordinary 108-stage bank: construction never fails. -/
theorem C3_counterexample :
    FilterBank.newChecked (-1) = none
    ∧ (FilterBank.new (-1)).filters.length = 108 := by
  have hneg : ¬ ((0:ℝ) < -1) := by norm_num
  exact ⟨by simp [FilterBank.newChecked, hneg], FilterBank.length_new (-1)⟩

/-- Claim C3, amended: Filter Bank construction performs no sample-rate
validation and never fails; for every sample rate, non-positive ones
included, new returns a bank of 108 stages, silently accepting whatever
coefficients result. -/
theorem C3_no_validation (sr : ℝ) (h : sr ≤ 0) :
    (FilterBank.new sr).filters.length = 108 :=
  FilterBank.length_new sr

/-- Claim C3, witness for the amended statement at sr = -1. -/
theorem C3_no_validation_witness :
    ((-1:ℝ) ≤ 0) ∧ (FilterBank.new (-1)).filters.length = 108 :=
  ⟨by norm_num, C3_no_validation (-1) (by norm_num)⟩

/-- Claim C7: for every weight vector, process_sample 0 on a freshly
constructed bank returns exactly 0: all delay states are zero, so every
stage outputs 0, and the correction term is 0 on a zero input. -/
theorem C7_zero_input_fresh_bank (sr : ℝ) (g : Fin 12 → ℝ) :
    (((FilterBank.new sr).set_gains g).process_sample 0).1 = 0 := by
  rw [FilterBank.process_sample_eq]
  have hz : ((FilterBank.new sr).set_gains g).specWeightedSum 0 = 0 := by
    unfold FilterBank.specWeightedSum
    apply List.sum_eq_zero
    intro y hy
    simp only [List.mem_map] at hy
    obtain ⟨p, hp, rfl⟩ := hy
    have hpz := FilterBank.new_state_zero sr p hp
    simp [PeakFilter.process, hpz.1]
  simp [hz]

/-- Claim C8: when all twelve weights are 0, process_sample returns 0 for
every input and every internal filter state: the weighted sum and the
correction term are both 0. -/
theorem C8_all_weights_zero (fb : FilterBank) (x : ℝ) (h : ∀ i, fb.gains i = 0) :
    (fb.process_sample x).1 = 0 := by
  rw [FilterBank.process_sample_eq]
  have h1 : fb.specWeightedSum x = 0 := by
    unfold FilterBank.specWeightedSum
    apply List.sum_eq_zero
    intro y hy
    simp only [List.mem_map] at hy
    obtain ⟨p, _, rfl⟩ := hy
    simp [h p.1]
  have h2 : fb.gainTotal = 0 := by
    unfold FilterBank.gainTotal
    apply List.sum_eq_zero
    intro y hy
    simp only [List.mem_map] at hy
    obtain ⟨p, _, rfl⟩ := hy
    exact h p.1
  simp [h1, h2]

/-- Claim C8, witness: the fresh 44100 Hz bank with all weights set to 0
maps the input 5 to 0. -/
theorem C8_all_weights_zero_witness :
    (∀ i, ((FilterBank.new 44100).set_gains (fun _ => 0)).gains i = 0)
    ∧ ((((FilterBank.new 44100).set_gains (fun _ => 0)).process_sample 5).1 = 0) :=
  ⟨fun _ => rfl, C8_all_weights_zero _ 5 (fun _ => rfl)⟩

/-- Accumulator form of the mono channel sum. -/
theorem foldl_add_aux (l : List ℝ) : ∀ a : ℝ, l.foldl (fun x y => x + y) a = a + l.sum := by
  induction l with
  | nil => simp
  | cons b l ih => intro a; simp [ih]; ring

/-- The channel sum computed by the mono loop is the list sum. -/
theorem foldl_add_eq_sum (l : List ℝ) : l.foldl (fun x y => x + y) 0 = l.sum := by
  simpa using foldl_add_aux l 0

/-- Unfolding of the mono arm output. -/
theorem processMono_fst (st : ColourizerRs) (ng : Fin 12 → ℝ) (mix : ℝ)
    (frames : List (List ℝ)) :
    (processMono st ng mix frames).1
      = (processMonoLoop mix frames (st.filterbank.set_gains ng) st.gainSmoother).1 := rfl

/-- Unfolding of the multi arm output: every channel is processed with its
own bank and the single block gain read at the current smoother cursor. -/
theorem processMulti_fst (st : ColourizerRs) (ng : Fin 12 → ℝ) (mix : ℝ)
    (channels : List (List ℝ)) :
    (processMulti st ng mix channels).1
      = (channels.zip ((multiBanks st channels.length).map (fun fb => fb.set_gains ng))).map
          (fun p => (processChannelLoop (st.gainSmoother.vals st.gainSmoother.pos) mix p.2 p.1).1) := by
  simp [processMulti, Smoother.next, List.map_map]

/-- Unfolding of the multi arm bank states. -/
theorem processMulti_banks (st : ColourizerRs) (ng : Fin 12 → ℝ) (mix : ℝ)
    (channels : List (List ℝ)) :
    (processMulti st ng mix channels).2.filterbanks
      = (channels.zip ((multiBanks st channels.length).map (fun fb => fb.set_gains ng))).map
          (fun p => (processChannelLoop (st.gainSmoother.vals st.gainSmoother.pos) mix p.2 p.1).2) := by
  simp [processMulti, Smoother.next, List.map_map]

/-- The multi arm advances the smoother exactly once per block. -/
theorem processMulti_smoother (st : ColourizerRs) (ng : Fin 12 → ℝ) (mix : ℝ)
    (channels : List (List ℝ)) :
    (processMulti st ng mix channels).2.gainSmoother
      = ⟨st.gainSmoother.vals, st.gainSmoother.pos + 1⟩ := rfl

/-- Claim C4: the mono arm equals its spec description: per frame, downmix
all channels to their arithmetic mean, run the single shared bank exactly
once on that mean, and write the dry/wet blend of the one processed value
back to every channel, replacing the original values. -/
theorem C4_mono_downmix_broadcast (mix : ℝ) (frames : List (List ℝ))
    (fb : FilterBank) (sm : Smoother) :
    processMonoLoop mix frames fb sm = monoSpecLoop mix frames fb sm := by
  induction frames generalizing fb sm with
  | nil => rfl
  | cons frame rest ih =>
    simp only [processMonoLoop, monoSpecLoop, blend, foldl_add_eq_sum, ih]

/-- Claim C5: in both modes every output sample is the dry/wet blend
dry * (1 - mix) + wet * mix of the original sample with the fully wet
sample; mix 0 reproduces the input exactly, and the mix 1/2 output is the
sample-for-sample arithmetic average of the mix 0 and mix 1 outputs (the
real-number embedding gives the identity exactly, hence within any
tolerance). -/
theorem C5_dry_wet_blend (st : ColourizerRs) (ng : Fin 12 → ℝ) (mix : ℝ)
    (h0 : 0 ≤ mix) (h1 : mix ≤ 1) (frames channels : List (List ℝ)) :
    ((processMono st ng mix frames).1
        = List.zipWith (fun f w => List.zipWith (blend mix) f w) frames
            (processMono st ng 1 frames).1
      ∧ (processMono st ng 0 frames).1 = frames
      ∧ (processMono st ng (1/2) frames).1
          = List.zipWith (fun a b => List.zipWith (fun d w => (d + w) / 2) a b)
              (processMono st ng 0 frames).1 (processMono st ng 1 frames).1)
    ∧ ((processMulti st ng mix channels).1
        = List.zipWith (fun ch w => List.zipWith (blend mix) ch w) channels
            (processMulti st ng 1 channels).1
      ∧ (processMulti st ng 0 channels).1 = channels
      ∧ (processMulti st ng (1/2) channels).1
          = List.zipWith (fun a b => List.zipWith (fun d w => (d + w) / 2) a b)
              (processMulti st ng 0 channels).1 (processMulti st ng 1 channels).1) := by
  have havg : (fun (f w : List ℝ) => List.zipWith (blend (1/2 : ℝ)) f w)
      = (fun a b => List.zipWith (fun d w => (d + w) / 2) a b) := by
    funext a b
    have hb : blend (1/2 : ℝ) = fun d w => (d + w) / 2 := by
      funext d w
      unfold blend
      ring
    rw [hb]
  have hlen : channels.length
      = ((multiBanks st channels.length).map (fun fb => fb.set_gains ng)).length := by
    simp [multiBanks_length]
  constructor
  · refine ⟨?_, ?_, ?_⟩
    · rw [processMono_fst, processMono_fst]
      exact (monoLoop_mix mix frames _ _).2
    · rw [processMono_fst]
      exact monoLoop_dry frames _ _
    · rw [processMono_fst, processMono_fst, processMono_fst]
      rw [(monoLoop_mix (1/2) frames (st.filterbank.set_gains ng) st.gainSmoother).2]
      rw [monoLoop_dry frames (st.filterbank.set_gains ng) st.gainSmoother]
      rw [havg]
  · refine ⟨?_, ?_, ?_⟩
    · rw [processMulti_fst, processMulti_fst]
      exact multi_outputs_mix _ mix channels _
    · rw [processMulti_fst]
      exact multi_outputs_dry _ channels _ hlen
    · rw [processMulti_fst, processMulti_fst, processMulti_fst]
      rw [multi_outputs_mix _ (1/2) channels _]
      rw [multi_outputs_dry _ channels _ hlen]
      rw [havg]

/-- Claim C5, witness at mix 1/2 on the concrete default state with a
one-frame, one-channel buffer. -/
theorem C5_dry_wet_blend_witness :
    ((0:ℝ) ≤ 1/2 ∧ (1/2:ℝ) ≤ 1)
    ∧ ((processMono sampleState (fun _ => 1) (1/2) [[1]]).1
          = List.zipWith (fun f w => List.zipWith (blend (1/2)) f w) [[1]]
              (processMono sampleState (fun _ => 1) 1 [[1]]).1
        ∧ (processMono sampleState (fun _ => 1) 0 [[1]]).1 = [[1]]
        ∧ (processMono sampleState (fun _ => 1) (1/2) [[1]]).1
            = List.zipWith (fun a b => List.zipWith (fun d w => (d + w) / 2) a b)
                (processMono sampleState (fun _ => 1) 0 [[1]]).1
                (processMono sampleState (fun _ => 1) 1 [[1]]).1)
    ∧ ((processMulti sampleState (fun _ => 1) (1/2) [[1]]).1
          = List.zipWith (fun ch w => List.zipWith (blend (1/2)) ch w) [[1]]
              (processMulti sampleState (fun _ => 1) 1 [[1]]).1
        ∧ (processMulti sampleState (fun _ => 1) 0 [[1]]).1 = [[1]]
        ∧ (processMulti sampleState (fun _ => 1) (1/2) [[1]]).1
            = List.zipWith (fun a b => List.zipWith (fun d w => (d + w) / 2) a b)
                (processMulti sampleState (fun _ => 1) 0 [[1]]).1
                (processMulti sampleState (fun _ => 1) 1 [[1]]).1) :=
  ⟨⟨by norm_num, by norm_num⟩,
   (C5_dry_wet_blend sampleState (fun _ => 1) (1/2) (by norm_num) (by norm_num) [[1]] [[1]]).1,
   (C5_dry_wet_blend sampleState (fun _ => 1) (1/2) (by norm_num) (by norm_num) [[1]] [[1]]).2⟩

/-- Claim C6: before any sample of a multi block is processed the bank list
is brought to exactly one bank per channel; on a mismatch the banks are
freshly constructed with all delay states zero, and after the block the
owned bank count still equals the channel count. -/
theorem C6_multi_bank_invariant (st : ColourizerRs) (ng : Fin 12 → ℝ) (mix : ℝ)
    (channels : List (List ℝ)) :
    (multiBanks st channels.length).length = channels.length
    ∧ (st.filterbanks.length ≠ channels.length →
        multiBanks st channels.length
          = List.replicate channels.length (FilterBank.new st.sample_rate)
        ∧ ∀ fb ∈ multiBanks st channels.length, ∀ p ∈ fb.filters,
            p.2.z1 = 0 ∧ p.2.z2 = 0)
    ∧ (processMulti st ng mix channels).2.filterbanks.length = channels.length := by
  refine ⟨multiBanks_length st _, ?_, ?_⟩
  · intro hne
    have hrep : multiBanks st channels.length
        = List.replicate channels.length (FilterBank.new st.sample_rate) := by
      simp [multiBanks, hne]
    refine ⟨hrep, ?_⟩
    intro fb hfb
    rw [hrep] at hfb
    have heq : fb = FilterBank.new st.sample_rate := List.eq_of_mem_replicate hfb
    rw [heq]
    exact FilterBank.new_state_zero st.sample_rate
  · rw [processMulti_banks]
    simp [multiBanks_length]

/-- Claim C6, witness: the default state owns no banks, so a one-channel
block triggers the reallocation to one fresh zero-state bank. -/
theorem C6_multi_bank_invariant_witness :
    (sampleState.filterbanks.length ≠ ([[(0:ℝ)]]).length)
    ∧ (multiBanks sampleState ([[(0:ℝ)]]).length
        = List.replicate ([[(0:ℝ)]]).length (FilterBank.new sampleState.sample_rate)
      ∧ ∀ fb ∈ multiBanks sampleState ([[(0:ℝ)]]).length, ∀ p ∈ fb.filters,
          p.2.z1 = 0 ∧ p.2.z2 = 0) :=
  ⟨by simp [sampleState],
   (C6_multi_bank_invariant sampleState (fun _ => 1) 1 [[0]]).2.1 (by simp [sampleState])⟩

/-- Claim C9, amended: in mono mode the smoother advances by one smoothed
sample per output sample frame; in multi mode it advances exactly once per
block, and that single value is reused for every channel and every sample
index of the block. -/
theorem C9_smoother_cadence (st : ColourizerRs) (ng : Fin 12 → ℝ) (mix : ℝ)
    (frames channels : List (List ℝ)) :
    (processMono st ng mix frames).2.gainSmoother.pos
        = st.gainSmoother.pos + frames.length
    ∧ (processMulti st ng mix channels).2.gainSmoother.pos
        = st.gainSmoother.pos + 1
    ∧ (processMulti st ng mix channels).1
        = (channels.zip ((multiBanks st channels.length).map (fun fb => fb.set_gains ng))).map
            (fun p => (processChannelLoop (st.gainSmoother.vals st.gainSmoother.pos) mix p.2 p.1).1) := by
  refine ⟨?_, ?_, processMulti_fst st ng mix channels⟩
  · exact monoLoop_pos mix frames (st.filterbank.set_gains ng) st.gainSmoother
  · rw [processMulti_smoother]

/-- Claim C9, counterexample: a multi block of one channel with two sample
indices advances the smoother cursor only once (to 1), not once per sample
index (which would give 2). -/
theorem C9_counterexample :
    (processMulti sampleState (fun _ => 1) 1 [[1, 2]]).2.gainSmoother.pos = 1
    ∧ (1 : ℕ) ≠ 2 := by
  constructor
  · rw [processMulti_smoother]
    rfl
  · decide

/-- Claim C10, amended: a zero-sample buffer is a no-op: the mono arm on an
empty frame list returns the empty buffer and leaves the shared bank
filters and the smoother unchanged, and the multi arm on all-empty
channels with a matching bank count returns the channels unchanged and
leaves every owned bank filter list unchanged. -/
theorem C10_zero_sample_noop (st : ColourizerRs) (ng : Fin 12 → ℝ) (mix : ℝ)
    (channels : List (List ℝ))
    (hlen : st.filterbanks.length = channels.length)
    (hch : ∀ ch ∈ channels, ch = ([] : List ℝ)) :
    (processMono st ng mix []).1 = ([] : List (List ℝ))
    ∧ (processMono st ng mix []).2.filterbank.filters = st.filterbank.filters
    ∧ (processMono st ng mix []).2.gainSmoother = st.gainSmoother
    ∧ (processMulti st ng mix channels).1 = channels
    ∧ (processMulti st ng mix channels).2.filterbanks.map FilterBank.filters
        = st.filterbanks.map FilterBank.filters := by
  have hbanks : (multiBanks st channels.length).map (fun fb => fb.set_gains ng)
      = st.filterbanks.map (fun fb => fb.set_gains ng) := by
    rw [multiBanks_of_eq st _ hlen]
  have hlen2 : channels.length
      = ((multiBanks st channels.length).map (fun fb => fb.set_gains ng)).length := by
    simp [multiBanks_length]
  have haux := multi_noop_aux (st.gainSmoother.vals st.gainSmoother.pos) mix channels
      ((multiBanks st channels.length).map (fun fb => fb.set_gains ng)) hlen2 hch
  refine ⟨rfl, rfl, rfl, ?_, ?_⟩
  · rw [processMulti_fst]
    exact haux.1
  · rw [processMulti_banks, haux.2, hbanks, List.map_map]
    rfl

/-- Claim C10, witness for the amended statement: the default state with no
owned banks and an empty channel list. -/
theorem C10_zero_sample_noop_witness :
    (sampleState.filterbanks.length = ([] : List (List ℝ)).length
      ∧ ∀ ch ∈ ([] : List (List ℝ)), ch = ([] : List ℝ))
    ∧ ((processMono sampleState (fun _ => 1) (1/2) []).1 = ([] : List (List ℝ))
      ∧ (processMono sampleState (fun _ => 1) (1/2) []).2.filterbank.filters
          = sampleState.filterbank.filters
      ∧ (processMono sampleState (fun _ => 1) (1/2) []).2.gainSmoother
          = sampleState.gainSmoother
      ∧ (processMulti sampleState (fun _ => 1) (1/2) []).1 = ([] : List (List ℝ))
      ∧ (processMulti sampleState (fun _ => 1) (1/2) []).2.filterbanks.map FilterBank.filters
          = sampleState.filterbanks.map FilterBank.filters) :=
  ⟨⟨rfl, fun ch hc => absurd hc (List.not_mem_nil ch)⟩,
   C10_zero_sample_noop sampleState (fun _ => 1) (1/2) [] rfl
     (fun ch hc => absurd hc (List.not_mem_nil ch))⟩

/-- Claim C10, counterexample: a mono buffer with one sample frame and zero
channels is not a no-op: the frame still runs the shared bank on the mean
of zero channels (0 / 0), and a stage holding a nonzero delay state (as
after processing earlier nonzero input) has its state changed by that run. -/
theorem C10_counterexample :
    ((processMono dirtyState (fun _ => 1) 1 [[]]).2.filterbank.filters.map
        (fun p => p.2.z1))
      ≠ dirtyState.filterbank.filters.map (fun p => p.2.z1) := by
  simp [processMono, processMonoLoop, dirtyState, dirtyFilter, FilterBank.set_gains,
    FilterBank.process_sample, PeakFilter.process, Smoother.next]

end

end Colourizer
